import Mathlib

/-!
Verification of the oasis-engine scene / lighting / render-pipeline core.

The definitions below are a shallow embedding of the TypeScript sources:
`packages/core/src/lighting/LightManager.ts`, `packages/core/src/Scene.ts`
and the basic render pipeline.  Scalar quantities that are IEEE doubles in
the source (intensities, colors, distances) are modelled as integers: every
claim under study is purely order/equality-theoretic, and
`Number.NEGATIVE_INFINITY` is modelled as the `Option.none` case of an
`Option Int` tracker, matching the property that it compares below every
finite value.
-/

namespace Oasis

/-! ## Light manager (`LightManager.ts`) -/

/-- `ShadowType` enum; only `none` vs everything else matters to this core. -/
inductive ShadowType where
  | none
  | hard
  | soft
deriving DecidableEq, Repr

/-- A directional light as seen by `LightManager._getSunLightIndex`:
`intensity` and `color.getBrightness()` enter only via their product, and
both factors are kept so the embedding mirrors the source expression
`directLight.intensity * directLight.color.getBrightness()`. -/
structure DirectLight where
  shadowType : ShadowType
  intensity : Int
  colorBrightness : Int
deriving DecidableEq, Repr

/-- `directLight.intensity * directLight.color.getBrightness()`. -/
def lightKey (l : DirectLight) : Int :=
  l.intensity * l.colorBrightness

/-- `directLight.shadowType !== ShadowType.None`. -/
def isShadowLight (l : DirectLight) : Bool :=
  decide (l.shadowType ≠ ShadowType.none)

/-- The three mutable locals of the `_getSunLightIndex` loop.
`maxIntensity = Option.none` models `Number.NEGATIVE_INFINITY`. -/
structure SunState where
  sunLightIndex : Int
  maxIntensity : Option Int
  hasShadowLight : Bool
deriving DecidableEq, Repr

/-- `maxIntensity < intensity` where `Option.none` is negative infinity. -/
def negInfLtKey (m : Option Int) (x : Int) : Bool :=
  match m with
  | Option.none => true
  | some v => decide (v < x)

/-- One iteration of the `_getSunLightIndex` loop at loop index `i`. -/
def sunStep (st : SunState) (i : Nat) (l : DirectLight) : SunState :=
  let st :=
    if isShadowLight l = true ∧ st.hasShadowLight = false then
      { st with maxIntensity := Option.none, hasShadowLight := true }
    else st
  let intensity := lightKey l
  if st.hasShadowLight = true then
    if isShadowLight l = true ∧ negInfLtKey st.maxIntensity intensity = true then
      { st with sunLightIndex := (i : Int), maxIntensity := some intensity }
    else st
  else
    if negInfLtKey st.maxIntensity intensity = true then
      { st with sunLightIndex := (i : Int), maxIntensity := some intensity }
    else st

/-- The `for` loop of `_getSunLightIndex`, threading the loop counter. -/
def sunLoop : SunState → Nat → List DirectLight → SunState
  | st, _, [] => st
  | st, i, l :: ls => sunLoop (sunStep st i l) (i + 1) ls

/-- `LightManager._getSunLightIndex`, over the directional-light container
read in index order. -/
def getSunLightIndex (lights : List DirectLight) : Int :=
  (sunLoop ⟨-1, Option.none, false⟩ 0 lights).sunLightIndex

/-- Membership in the winning dominance tier: when some directional light
casts shadows the tier is the shadow-casting lights, otherwise all of them. -/
def tierOK (P : List DirectLight) (l : DirectLight) : Prop :=
  P.any isShadowLight = true → isShadowLight l = true

/-- Loop invariant of `_getSunLightIndex` after processing the prefix `P`:
the winner so far lies in the running dominance tier, maximises the
intensity–brightness product there, and strictly beats every earlier tier
member. -/
def SunInv (P : List DirectLight) (st : SunState) : Prop :=
  st.hasShadowLight = P.any isShadowLight ∧
  (P = [] → st.sunLightIndex = -1 ∧ st.maxIntensity = Option.none) ∧
  (P ≠ [] → ∃ (j : Nat) (lj : DirectLight),
    P[j]? = some lj ∧ st.sunLightIndex = (j : Int) ∧
    st.maxIntensity = some (lightKey lj) ∧ tierOK P lj ∧
    ∀ (k : Nat) (lk : DirectLight), P[k]? = some lk → tierOK P lk →
      lightKey lk ≤ lightKey lj ∧ (k < j → lightKey lk < lightKey lj))

lemma sunStep_shadow_first (st : SunState) (i : Nat) (l : DirectLight)
    (hs : isShadowLight l = true) (hsh : st.hasShadowLight = false) :
    sunStep st i l =
      { sunLightIndex := (i : Int), maxIntensity := some (lightKey l),
        hasShadowLight := true } := by
  simp [sunStep, hs, hsh, negInfLtKey]

lemma sunStep_shadow_already (st : SunState) (i : Nat) (l : DirectLight)
    (hs : isShadowLight l = true) (hsh : st.hasShadowLight = true) :
    sunStep st i l =
      if negInfLtKey st.maxIntensity (lightKey l) = true then
        { st with sunLightIndex := (i : Int), maxIntensity := some (lightKey l) }
      else st := by
  simp [sunStep, hs, hsh]

lemma sunStep_nonshadow_already (st : SunState) (i : Nat) (l : DirectLight)
    (hs : isShadowLight l = false) (hsh : st.hasShadowLight = true) :
    sunStep st i l = st := by
  simp [sunStep, hs, hsh]

lemma sunStep_nonshadow_fresh (st : SunState) (i : Nat) (l : DirectLight)
    (hs : isShadowLight l = false) (hsh : st.hasShadowLight = false) :
    sunStep st i l =
      if negInfLtKey st.maxIntensity (lightKey l) = true then
        { st with sunLightIndex := (i : Int), maxIntensity := some (lightKey l) }
      else st := by
  simp [sunStep, hs, hsh]

lemma sunStep_inv (P : List DirectLight) (st : SunState) (l : DirectLight)
    (h : SunInv P st) : SunInv (P ++ [l]) (sunStep st P.length l) := by
  obtain ⟨hh, hnil, hcons⟩ := h
  have hget : ∀ k : Nat, k < P.length → (P ++ [l])[k]? = P[k]? := by
    intro k hk
    rw [List.getElem?_append]
    simp [hk]
  have hgetl : (P ++ [l])[P.length]? = some l := List.getElem?_concat_length P l
  have hany : (P ++ [l]).any isShadowLight = (P.any isShadowLight || isShadowLight l) := by
    simp
  have hkbound : ∀ (k : Nat) (lk : DirectLight),
      (P ++ [l])[k]? = some lk → k < P.length ∨ k = P.length := by
    intro k lk hk
    rcases List.getElem?_eq_some.mp hk with ⟨hb, _⟩
    have : k < P.length + 1 := by simpa using hb
    exact Nat.lt_succ_iff_lt_or_eq.mp this
  cases hs : isShadowLight l with
  | true =>
    cases hsh : st.hasShadowLight with
    | true =>
      -- a shadow light arrives while already in the shadow tier
      have hPany : P.any isShadowLight = true := by rw [hsh] at hh; exact hh.symm
      have hPne : P ≠ [] := by
        intro he
        rw [he] at hPany
        simp at hPany
      obtain ⟨j, lj, hj, hsun, hmax, htj, hmaxall⟩ := hcons hPne
      have hjb : j < P.length := (List.getElem?_eq_some.mp hj).1
      have hstep := sunStep_shadow_already st P.length l hs hsh
      rw [hmax] at hstep
      by_cases hlt : lightKey lj < lightKey l
      · have hres : sunStep st P.length l =
            { st with sunLightIndex := (P.length : Int),
                      maxIntensity := some (lightKey l) } := by
          rw [hstep]
          simp [negInfLtKey, hlt]
        rw [hres]
        refine ⟨by simp [hsh, hany, hPany], by intro he; simp at he, fun _ => ?_⟩
        refine ⟨P.length, l, hgetl, rfl, rfl, fun _ => hs, ?_⟩
        intro k lk hk htk
        rcases hkbound k lk hk with hklt | hkeq
        · rw [hget k hklt] at hk
          have hslk : isShadowLight lk = true := htk (by simp [hany, hPany])
          have hle := (hmaxall k lk hk (fun _ => hslk)).1
          exact ⟨le_of_lt (lt_of_le_of_lt hle hlt), fun _ => lt_of_le_of_lt hle hlt⟩
        · subst hkeq
          rw [hgetl] at hk
          injection hk with hk
          subst hk
          exact ⟨le_refl _, fun hkk => absurd hkk (lt_irrefl _)⟩
      · have hres : sunStep st P.length l = st := by
          rw [hstep]
          simp [negInfLtKey, hlt]
        rw [hres]
        refine ⟨by simp [hsh, hany, hPany], by intro he; simp at he, fun _ => ?_⟩
        refine ⟨j, lj, by rw [hget j hjb]; exact hj, hsun, hmax, fun _ => htj hPany, ?_⟩
        intro k lk hk htk
        rcases hkbound k lk hk with hklt | hkeq
        · rw [hget k hklt] at hk
          exact hmaxall k lk hk (fun _ => htk (by simp [hany, hPany]))
        · subst hkeq
          rw [hgetl] at hk
          injection hk with hk
          subst hk
          exact ⟨le_of_not_lt hlt, fun hkj => absurd (lt_trans hjb hkj) (by omega)⟩
    | false =>
      -- the first shadow light: the tracker resets and the light wins
      have hPany : P.any isShadowLight = false := by rw [hsh] at hh; exact hh.symm
      have hres := sunStep_shadow_first st P.length l hs hsh
      rw [hres]
      refine ⟨by simp [hany, hPany, hs], by intro he; simp at he, fun _ => ?_⟩
      refine ⟨P.length, l, hgetl, rfl, rfl, fun _ => hs, ?_⟩
      intro k lk hk htk
      rcases hkbound k lk hk with hklt | hkeq
      · rw [hget k hklt] at hk
        have hmem : lk ∈ P := by
          rcases List.getElem?_eq_some.mp hk with ⟨hb, he⟩
          exact he ▸ List.getElem_mem hb
        have hnotsh := List.any_eq_false.mp hPany lk hmem
        have hslk := htk (by simp [hany, hs])
        exact absurd hslk hnotsh
      · subst hkeq
        rw [hgetl] at hk
        injection hk with hk
        subst hk
        exact ⟨le_refl _, fun hkk => absurd hkk (lt_irrefl _)⟩
  | false =>
    cases hsh : st.hasShadowLight with
    | true =>
      -- a non-shadow light is ignored once the shadow tier is active
      have hPany : P.any isShadowLight = true := by rw [hsh] at hh; exact hh.symm
      have hPne : P ≠ [] := by
        intro he
        rw [he] at hPany
        simp at hPany
      obtain ⟨j, lj, hj, hsun, hmax, htj, hmaxall⟩ := hcons hPne
      have hjb : j < P.length := (List.getElem?_eq_some.mp hj).1
      have hres := sunStep_nonshadow_already st P.length l hs hsh
      rw [hres]
      refine ⟨by simp [hsh, hany, hPany], by intro he; simp at he, fun _ => ?_⟩
      refine ⟨j, lj, by rw [hget j hjb]; exact hj, hsun, hmax, fun _ => htj hPany, ?_⟩
      intro k lk hk htk
      rcases hkbound k lk hk with hklt | hkeq
      · rw [hget k hklt] at hk
        exact hmaxall k lk hk (fun _ => htk (by simp [hany, hPany]))
      · subst hkeq
        rw [hgetl] at hk
        injection hk with hk
        subst hk
        have := htk (by simp [hany, hPany])
        rw [hs] at this
        exact absurd this (by simp)
    | false =>
      -- still in the all-lights tier: a plain running maximum
      have hPany : P.any isShadowLight = false := by rw [hsh] at hh; exact hh.symm
      have hres := sunStep_nonshadow_fresh st P.length l hs hsh
      by_cases hPe : P = []
      · subst hPe
        obtain ⟨hsi, hmi⟩ := hnil rfl
        rw [hmi] at hres
        have hres2 : sunStep st 0 l =
            { st with sunLightIndex := (0 : Int), maxIntensity := some (lightKey l) } := by
          simpa [negInfLtKey] using hres
        simp only [List.nil_append, List.length_nil]
        rw [hres2]
        refine ⟨by simp [hsh, hs], by intro he; simp at he, fun _ => ?_⟩
        refine ⟨0, l, by simp, rfl, rfl, fun hc => by simp [hs] at hc, ?_⟩
        intro k lk hk htk
        have hk0 : k = 0 := by
          rcases List.getElem?_eq_some.mp hk with ⟨hb, _⟩
          simpa using hb
        subst hk0
        simp only [List.getElem?_cons_zero] at hk
        injection hk with hk
        subst hk
        exact ⟨le_refl _, fun hkk => absurd hkk (lt_irrefl _)⟩
      · obtain ⟨j, lj, hj, hsun, hmax, htj, hmaxall⟩ := hcons hPe
        have hjb : j < P.length := (List.getElem?_eq_some.mp hj).1
        rw [hmax] at hres
        by_cases hlt : lightKey lj < lightKey l
        · have hres2 : sunStep st P.length l =
              { st with sunLightIndex := (P.length : Int),
                        maxIntensity := some (lightKey l) } := by
            rw [hres]
            simp [negInfLtKey, hlt]
          rw [hres2]
          refine ⟨by simp [hsh, hany, hPany, hs], by intro he; simp at he, fun _ => ?_⟩
          refine ⟨P.length, l, hgetl, rfl, rfl,
            fun hc => by simp [hany, hPany, hs] at hc, ?_⟩
          intro k lk hk htk
          rcases hkbound k lk hk with hklt | hkeq
          · rw [hget k hklt] at hk
            have hle := (hmaxall k lk hk (fun hc => by rw [hPany] at hc; exact absurd hc (by simp))).1
            exact ⟨le_of_lt (lt_of_le_of_lt hle hlt), fun _ => lt_of_le_of_lt hle hlt⟩
          · subst hkeq
            rw [hgetl] at hk
            injection hk with hk
            subst hk
            exact ⟨le_refl _, fun hkk => absurd hkk (lt_irrefl _)⟩
        · have hres2 : sunStep st P.length l = st := by
            rw [hres]
            simp [negInfLtKey, hlt]
          rw [hres2]
          refine ⟨by simp [hsh, hany, hPany, hs], by intro he; simp at he, fun _ => ?_⟩
          refine ⟨j, lj, by rw [hget j hjb]; exact hj, hsun, hmax,
            fun hc => by simp [hany, hPany, hs] at hc, ?_⟩
          intro k lk hk htk
          rcases hkbound k lk hk with hklt | hkeq
          · rw [hget k hklt] at hk
            exact hmaxall k lk hk (fun hc => by rw [hPany] at hc; exact absurd hc (by simp))
          · subst hkeq
            rw [hgetl] at hk
            injection hk with hk
            subst hk
            exact ⟨le_of_not_lt hlt, fun hkj => absurd (lt_trans hjb hkj) (by omega)⟩

lemma sunLoop_inv : ∀ (ls P : List DirectLight) (st : SunState),
    SunInv P st → SunInv (P ++ ls) (sunLoop st P.length ls)
  | [], P, st, h => by simpa using h
  | l :: ls, P, st, h => by
    have h1 := sunStep_inv P st l h
    have h2 := sunLoop_inv ls (P ++ [l]) (sunStep st P.length l) h1
    simp only [List.length_append, List.length_cons, List.length_nil, Nat.zero_add,
      List.append_assoc, List.singleton_append] at h2
    exact h2

lemma SunInv_init : SunInv [] ⟨-1, Option.none, false⟩ := by
  refine ⟨rfl, fun _ => ⟨rfl, rfl⟩, fun h => absurd rfl h⟩

/-- C1: `_getSunLightIndex` returns `-1` when there are no directional
lights; otherwise it returns the index of a light of the winning dominance
tier (the shadow-casting lights when any exist, else all lights) whose
`intensity * colorBrightness` product is maximal in that tier, and every
earlier tier member has a strictly smaller product (ties keep the earliest
light). -/
theorem getSunLightIndex_spec (lights : List DirectLight) :
    (lights = [] → getSunLightIndex lights = -1) ∧
    (lights ≠ [] → ∃ (j : Nat) (lj : DirectLight),
      lights[j]? = some lj ∧ getSunLightIndex lights = (j : Int) ∧
      (lights.any isShadowLight = true → isShadowLight lj = true) ∧
      ∀ (k : Nat) (lk : DirectLight), lights[k]? = some lk →
        (lights.any isShadowLight = true → isShadowLight lk = true) →
        lightKey lk ≤ lightKey lj ∧ (k < j → lightKey lk < lightKey lj)) := by
  have h := sunLoop_inv lights [] ⟨-1, Option.none, false⟩ SunInv_init
  simp only [List.nil_append, List.length_nil] at h
  obtain ⟨_, hnil, hcons⟩ := h
  constructor
  · intro he
    exact (hnil he).1
  · intro hne
    obtain ⟨j, lj, hj, hsun, _, htj, hmax⟩ := hcons hne
    exact ⟨j, lj, hj, hsun, htj, hmax⟩

/-- Witness for C1 at a concrete registry: a weak shadow-casting light
(index 1) wins over a much brighter non-shadow light (index 0). -/
theorem getSunLightIndex_spec_witness :
    ∃ (j : Nat) (lj : DirectLight),
      [DirectLight.mk ShadowType.none 100 1, DirectLight.mk ShadowType.hard 1 1][j]? = some lj ∧
      getSunLightIndex
        [DirectLight.mk ShadowType.none 100 1, DirectLight.mk ShadowType.hard 1 1] = (j : Int) ∧
      ([DirectLight.mk ShadowType.none 100 1,
          DirectLight.mk ShadowType.hard 1 1].any isShadowLight = true →
        isShadowLight lj = true) ∧
      ∀ (k : Nat) (lk : DirectLight),
        [DirectLight.mk ShadowType.none 100 1, DirectLight.mk ShadowType.hard 1 1][k]? = some lk →
        ([DirectLight.mk ShadowType.none 100 1,
            DirectLight.mk ShadowType.hard 1 1].any isShadowLight = true →
          isShadowLight lk = true) →
        lightKey lk ≤ lightKey lj ∧ (k < j → lightKey lk < lightKey lj) :=
  (getSunLightIndex_spec
    [DirectLight.mk ShadowType.none 100 1, DirectLight.mk ShadowType.hard 1 1]).2
    (by decide)

/-! ## Light registry attach/detach (`LightManager.ts` + `DisorderedArray`) -/

/-- A light as stored in one of the registry containers: an identity plus
the registry-assigned `_lightIndex` slot. -/
structure RegLight where
  idn : Nat
  lightIndex : Int
deriving DecidableEq, Repr

/-- Modelled from the spec: `DisorderedArray.deleteByIndex` (the
`DisorderedArray` class itself is not among the provided sources).  Per the
spec, detachment swap-removes: the last element is moved into the freed
slot and returned so its index can be repaired, and removing the last
element signals that no swap was needed. -/
def deleteByIndex (c : List RegLight) (i : Nat) : Option RegLight × List RegLight :=
  if i + 1 = c.length then (Option.none, c.take (c.length - 1))
  else
    match c.getLast? with
    | Option.none => (Option.none, c)
    | some last => (some last, (c.set i last).take (c.length - 1))

/-- `LightManager._attachDirectLight` (identical for point/spot lights):
assign the next slot index, then append. -/
def attachLight (c : List RegLight) (idn : Nat) : List RegLight :=
  c ++ [{ idn := idn, lightIndex := (c.length : Int) }]

/-- `LightManager._detachDirectLight` (identical for point/spot lights):
swap-remove at the light's stored index, repair the moved element's index,
and mark the detached light with index `-1`.  Returns the detached light
and the updated container. -/
def detachLight (c : List RegLight) (lig : RegLight) : RegLight × List RegLight :=
  let i := lig.lightIndex.toNat
  match deleteByIndex c i with
  | (Option.none, c2) => ({ lig with lightIndex := -1 }, c2)
  | (some moved, c2) =>
      ({ lig with lightIndex := -1 }, c2.set i { moved with lightIndex := (i : Int) })

/-- The three type-specific containers of `LightManager`. -/
structure LightRegistry where
  directLights : List RegLight
  pointLights : List RegLight
  spotLights : List RegLight
deriving Repr

inductive LightKind where
  | direct
  | point
  | spot
deriving DecidableEq, Repr

/-- An attach or detach call on one of the three containers; `detach pos`
detaches the light currently stored at position `pos`. -/
inductive LightOp where
  | attach (kind : LightKind) (idn : Nat)
  | detach (kind : LightKind) (pos : Nat)
deriving DecidableEq, Repr

def getContainer (r : LightRegistry) : LightKind → List RegLight
  | LightKind.direct => r.directLights
  | LightKind.point => r.pointLights
  | LightKind.spot => r.spotLights

def setContainer (r : LightRegistry) (k : LightKind) (c : List RegLight) : LightRegistry :=
  match k with
  | LightKind.direct => { r with directLights := c }
  | LightKind.point => { r with pointLights := c }
  | LightKind.spot => { r with spotLights := c }

def lightRegStep (r : LightRegistry) : LightOp → LightRegistry
  | LightOp.attach k idn => setContainer r k (attachLight (getContainer r k) idn)
  | LightOp.detach k pos =>
      let c := getContainer r k
      if h : pos < c.length then
        setContainer r k (detachLight c (c.get ⟨pos, h⟩)).2
      else r

/-- Every light stored in a container has its `_lightIndex` equal to its
position in that container. -/
def RegInv (cs : List RegLight) : Prop :=
  ∀ (k : Nat) (e : RegLight), cs[k]? = some e → e.lightIndex = (k : Int)

lemma regInv_attach (c : List RegLight) (idn : Nat) (h : RegInv c) :
    RegInv (attachLight c idn) := by
  intro k e hk
  rcases List.getElem?_eq_some.mp hk with ⟨hb, _⟩
  have hb' : k < c.length + 1 := by simpa [attachLight] using hb
  rcases Nat.lt_succ_iff_lt_or_eq.mp hb' with hklt | hkeq
  · apply h k e
    rw [attachLight, List.getElem?_append] at hk
    simpa [hklt] using hk
  · subst hkeq
    rw [attachLight, List.getElem?_concat_length] at hk
    injection hk with hk
    subst hk
    rfl

lemma regInv_detach (cs : List RegLight) (pos : Nat) (hpos : pos < cs.length)
    (h : RegInv cs) : RegInv (detachLight cs (cs.get ⟨pos, hpos⟩)).2 := by
  have hidx : cs[pos].lightIndex = (pos : Int) := by
    apply h pos
    rw [List.getElem?_eq_some]
    exact ⟨hpos, rfl⟩
  have htn : cs[pos].lightIndex.toNat = pos := by
    rw [hidx]
    simp
  by_cases hlastpos : pos + 1 = cs.length
  · have hres : (detachLight cs (cs.get ⟨pos, hpos⟩)).2 = cs.take (cs.length - 1) := by
      simp [detachLight, htn, deleteByIndex, hlastpos]
    rw [hres]
    intro k e hk
    rw [List.getElem?_take] at hk
    by_cases hkl : k < cs.length - 1
    · exact h k e (by simpa [hkl] using hk)
    · simp [hkl] at hk
  · have hne : cs ≠ [] := by
      intro he
      rw [he] at hpos
      simp at hpos
    obtain ⟨last, hlast⟩ : ∃ last, cs.getLast? = some last :=
      Option.isSome_iff_exists.mp (by simpa using List.getLast?_isSome.mpr hne)
    have hres : (detachLight cs (cs.get ⟨pos, hpos⟩)).2 =
        ((cs.set pos last).take (cs.length - 1)).set pos
          { last with lightIndex := (pos : Int) } := by
      simp [detachLight, htn, deleteByIndex, hlastpos, hlast]
    rw [hres]
    intro k e hk
    have hposlt : pos < cs.length - 1 := by omega
    rw [List.getElem?_set] at hk
    by_cases hpk : pos = k
    · subst hpk
      have hlen : pos < ((cs.set pos last).take (cs.length - 1)).length := by
        simp
        omega
      rw [if_pos rfl, if_pos hlen] at hk
      injection hk with hk
      subst hk
      rfl
    · rw [if_neg hpk, List.getElem?_take] at hk
      by_cases hkl : k < cs.length - 1
      · rw [if_pos hkl, List.getElem?_set, if_neg hpk] at hk
        exact h k e hk
      · simp [hkl] at hk

def RegInv3 (r : LightRegistry) : Prop :=
  RegInv r.directLights ∧ RegInv r.pointLights ∧ RegInv r.spotLights

lemma regInv3_step (r : LightRegistry) (op : LightOp) (h : RegInv3 r) :
    RegInv3 (lightRegStep r op) := by
  obtain ⟨h1, h2, h3⟩ := h
  cases op with
  | attach k idn =>
    cases k with
    | direct => exact ⟨regInv_attach r.directLights idn h1, h2, h3⟩
    | point => exact ⟨h1, regInv_attach r.pointLights idn h2, h3⟩
    | spot => exact ⟨h1, h2, regInv_attach r.spotLights idn h3⟩
  | detach k pos =>
    cases k with
    | direct =>
      by_cases hp : pos < r.directLights.length
      · simp only [lightRegStep, getContainer, dif_pos hp, setContainer]
        exact ⟨regInv_detach _ pos hp h1, h2, h3⟩
      · simp only [lightRegStep, getContainer, dif_neg hp]
        exact ⟨h1, h2, h3⟩
    | point =>
      by_cases hp : pos < r.pointLights.length
      · simp only [lightRegStep, getContainer, dif_pos hp, setContainer]
        exact ⟨h1, regInv_detach _ pos hp h2, h3⟩
      · simp only [lightRegStep, getContainer, dif_neg hp]
        exact ⟨h1, h2, h3⟩
    | spot =>
      by_cases hp : pos < r.spotLights.length
      · simp only [lightRegStep, getContainer, dif_pos hp, setContainer]
        exact ⟨h1, h2, regInv_detach _ pos hp h3⟩
      · simp only [lightRegStep, getContainer, dif_neg hp]
        exact ⟨h1, h2, h3⟩

lemma regInv3_foldl : ∀ (ops : List LightOp) (r : LightRegistry),
    RegInv3 r → RegInv3 (ops.foldl lightRegStep r)
  | [], _, h => h
  | op :: ops, r, h => regInv3_foldl ops (lightRegStep r op) (regInv3_step r op h)

/-- C6: after any interleaving of attach and detach calls starting from the
empty registry, every light stored in each of the directional, point and
spot containers has its stored `_lightIndex` equal to its container
position, and every detach call hands back the detached light with stored
index `-1`. -/
theorem lightRegistry_index_inv (ops : List LightOp) :
    (RegInv (ops.foldl lightRegStep ⟨[], [], []⟩).directLights ∧
     RegInv (ops.foldl lightRegStep ⟨[], [], []⟩).pointLights ∧
     RegInv (ops.foldl lightRegStep ⟨[], [], []⟩).spotLights) ∧
    ∀ (c : List RegLight) (lig : RegLight), (detachLight c lig).1.lightIndex = -1 := by
  constructor
  · exact regInv3_foldl ops ⟨[], [], []⟩
      ⟨fun k e hk => by simp at hk, fun k e hk => by simp at hk,
       fun k e hk => by simp at hk⟩
  · intro c lig
    simp only [detachLight]
    rcases hdel : deleteByIndex c lig.lightIndex.toNat with ⟨moved, c2⟩
    cases moved <;> rfl

/-! ## Scene root-entity list (`Scene.ts`) -/

/-- A root entity as seen by the root-list bookkeeping: an identity plus
the `_siblingIndex` field. -/
structure REntity where
  eid : Nat
  siblingIndex : Int
deriving DecidableEq, Repr

def incSib (e : REntity) : REntity :=
  { e with siblingIndex := e.siblingIndex + 1 }

def decSib (e : REntity) : REntity :=
  { e with siblingIndex := e.siblingIndex - 1 }

/-- `Scene._removeFromEntityList`: splice out the entity at its stored
sibling index and decrement the sibling index of everything after it
(the entity's own index is then set to `-1`, which does not affect the
list). -/
def removeFromEntityList (rl : List REntity) (e : REntity) : List REntity :=
  let index := e.siblingIndex.toNat
  rl.take index ++ (rl.drop (index + 1)).map decSib

/-- `Scene._addToRootEntityList`: push to the end when `index` is
`undefined`; otherwise bounds-check (`index < 0 || index > rootEntityCount`
throws), splice in at `index`, and increment the sibling index of
everything after the insertion point.  Returns the new list together with
the entity as mutated. -/
def addToRootEntityList (rl : List REntity) (index : Option Int) (e : REntity) :
    Except String (List REntity × REntity) :=
  match index with
  | Option.none =>
      let e2 := { e with siblingIndex := (rl.length : Int) }
      Except.ok (rl ++ [e2], e2)
  | some i =>
      if i < 0 ∨ (rl.length : Int) < i then
        Except.error "The index is out of child list bounds"
      else
        let e2 := { e with siblingIndex := i }
        Except.ok (rl.take i.toNat ++ [e2] ++ (rl.drop i.toNat).map incSib, e2)

/-- A call to `addRootEntity` (with optional index) or `removeRootEntity`
(removing the root currently at position `pos`, which is how
`removeRootEntity` reaches `_removeFromEntityList` for a member root). -/
inductive RootOp where
  | add (index : Option Int) (eid : Nat)
  | remove (pos : Nat)
deriving DecidableEq, Repr

def rootStep (rl : List REntity) : RootOp → List REntity
  | RootOp.add index eid =>
      match addToRootEntityList rl index { eid := eid, siblingIndex := -1 } with
      | Except.ok res => res.1
      | Except.error _ => rl
  | RootOp.remove pos =>
      if h : pos < rl.length then removeFromEntityList rl (rl.get ⟨pos, h⟩) else rl

/-- Every root entity's stored sibling index equals its list position:
positions `0..N-1` in array order, gap-free. -/
def SibInv (rl : List REntity) : Prop :=
  ∀ (k : Nat) (e : REntity), rl[k]? = some e → e.siblingIndex = (k : Int)

lemma sibInv_add_end (rl : List REntity) (e : REntity) (h : SibInv rl) :
    SibInv (rl ++ [{ e with siblingIndex := (rl.length : Int) }]) := by
  intro k x hk
  rcases List.getElem?_eq_some.mp hk with ⟨hb, _⟩
  have hb' : k < rl.length + 1 := by simpa using hb
  rcases Nat.lt_succ_iff_lt_or_eq.mp hb' with hklt | hkeq
  · apply h k x
    rw [List.getElem?_append] at hk
    simpa [hklt] using hk
  · subst hkeq
    rw [List.getElem?_concat_length] at hk
    injection hk with hk
    subst hk
    rfl

lemma sibInv_insert (rl : List REntity) (n : Nat) (e : REntity) (hn : n ≤ rl.length)
    (h : SibInv rl) :
    SibInv (rl.take n ++ [{ e with siblingIndex := (n : Int) }] ++ (rl.drop n).map incSib) := by
  intro k x hk
  have hlt : (rl.take n).length = n := by simp [Nat.min_eq_left hn]
  rw [List.append_assoc, List.getElem?_append] at hk
  rw [hlt] at hk
  by_cases hkn : k < n
  · rw [if_pos hkn, List.getElem?_take, if_pos hkn] at hk
    exact h k x hk
  · rw [if_neg hkn] at hk
    rcases Nat.eq_or_lt_of_le (Nat.le_of_not_lt hkn) with hkeq | hkgt
    · rw [← hkeq] at hk
      simp only [Nat.sub_self, List.singleton_append, List.getElem?_cons_zero] at hk
      injection hk with hk
      subst hk
      simp [hkeq]
    · have hpos : 0 < k - n := by omega
      rcases Nat.exists_eq_add_of_lt hpos with ⟨j, hj⟩
      have hkn1 : k - n = j + 1 := by omega
      rw [hkn1] at hk
      simp only [List.singleton_append, List.getElem?_cons_succ, List.getElem?_map,
        List.getElem?_drop] at hk
      rcases hmap : rl[n + j]? with _ | y
      · rw [hmap] at hk
        simp at hk
      · rw [hmap] at hk
        simp only [Option.map_some'] at hk
        injection hk with hk
        subst hk
        have := h (n + j) y hmap
        simp only [incSib, this]
        push_cast
        omega

lemma sibInv_remove (rl : List REntity) (pos : Nat) (hpos : pos < rl.length)
    (h : SibInv rl) : SibInv (removeFromEntityList rl (rl.get ⟨pos, hpos⟩)) := by
  have hidx : rl[pos].siblingIndex = (pos : Int) := by
    apply h pos
    rw [List.getElem?_eq_some]
    exact ⟨hpos, rfl⟩
  have htn : rl[pos].siblingIndex.toNat = pos := by
    rw [hidx]
    simp
  have hres : removeFromEntityList rl (rl.get ⟨pos, hpos⟩) =
      rl.take pos ++ (rl.drop (pos + 1)).map decSib := by
    simp [removeFromEntityList, htn]
  rw [hres]
  intro k x hk
  have hlt : (rl.take pos).length = pos := by
    simp [Nat.min_eq_left (Nat.le_of_lt hpos)]
  rw [List.getElem?_append] at hk
  rw [hlt] at hk
  by_cases hkn : k < pos
  · rw [if_pos hkn, List.getElem?_take, if_pos hkn] at hk
    exact h k x hk
  · rw [if_neg hkn] at hk
    simp only [List.getElem?_map, List.getElem?_drop] at hk
    rcases hmap : rl[pos + 1 + (k - pos)]? with _ | y
    · rw [hmap] at hk
      simp at hk
    · rw [hmap] at hk
      simp only [Option.map_some'] at hk
      injection hk with hk
      subst hk
      have := h (pos + 1 + (k - pos)) y hmap
      simp only [decSib, this]
      push_cast
      omega

lemma sibInv_step (rl : List REntity) (op : RootOp) (h : SibInv rl) :
    SibInv (rootStep rl op) := by
  cases op with
  | add index eid =>
    cases index with
    | none =>
      simpa [rootStep, addToRootEntityList] using
        sibInv_add_end rl { eid := eid, siblingIndex := -1 } h
    | some i =>
      by_cases hb : i < 0 ∨ (rl.length : Int) < i
      · simp [rootStep, addToRootEntityList, hb]
        exact h
      · push_neg at hb
        have h0 : 0 ≤ i := hb.1
        have hle : i.toNat ≤ rl.length := by omega
        have hcast : ((i.toNat : Nat) : Int) = i := Int.toNat_of_nonneg h0
        have hins := sibInv_insert rl i.toNat { eid := eid, siblingIndex := -1 } hle h
        rw [hcast] at hins
        simp only [rootStep, addToRootEntityList]
        rw [if_neg (by push_neg; exact hb)]
        exact hins
  | remove pos =>
    by_cases hp : pos < rl.length
    · simp only [rootStep, dif_pos hp]
      exact sibInv_remove rl pos hp h
    · simp only [rootStep, dif_neg hp]
      exact h

lemma sibInv_foldl : ∀ (ops : List RootOp) (rl : List REntity),
    SibInv rl → SibInv (ops.foldl rootStep rl)
  | [], _, h => h
  | op :: ops, rl, h => sibInv_foldl ops (rootStep rl op) (sibInv_step rl op h)

/-- C2: after every finite sequence of `addRootEntity`/`removeRootEntity`
calls starting from an empty scene, every entity in the root list has its
sibling index equal to its array position, i.e. the indices are the
contiguous sequence `0..N-1` in array order. -/
theorem sceneRootList_sibling_inv (ops : List RootOp) :
    SibInv (ops.foldl rootStep []) :=
  sibInv_foldl ops [] (fun k e hk => by simp at hk)

/-! ## `Scene.addRootEntity` error path -/

/-- Entity state touched by `addRootEntity`: root flag, parent link,
owning-scene reference and sibling index. -/
structure EntitySt where
  eid : Nat
  isRoot : Bool
  parent : Option Nat
  sceneId : Option Nat
  siblingIndex : Int
deriving DecidableEq, Repr

/-- Outcome of one `addRootEntity` call on this scene: the propagated
throw (if any), this scene's root list, the old scene's root list, and
the entity's state when the call returns or the throw escapes. -/
structure AddRootResult where
  thrown : Option String
  rootEntities : List REntity
  oldSceneEntities : List REntity
  entity : EntitySt
deriving DecidableEq, Repr

/-- `Scene.addRootEntity` with an optional explicit index, acting on this
scene's root list `rl` (this scene has id `thisScene`); `oldRl` is the
root list of the scene `e.sceneId` refers to when that is a different
scene.  Mutation order follows the source: for a non-root entity the root
flag is set and the entity is detached from its parent
(`_removeFromParent`, modelled from the spec: "detaching from any existing
parent first"); then, for an entity that was a root of a different scene,
`oldScene._removeFromEntityList(entity)` splices it out of the old scene's
list and sets its sibling index to `-1`; only after that does
`_addToRootEntityList` bounds-check the index, so a throw leaves all those
mutations behind.  `Entity._traverseSetOwnerScene` is modelled from the
spec as setting the owning-scene reference; activation processing carries
no state modelled here. -/
def addRootEntity (rl oldRl : List REntity) (e : EntitySt) (index : Option Int)
    (thisScene : Nat) : AddRootResult :=
  let isRoot := e.isRoot
  let e1 := if isRoot = false then { e with isRoot := true, parent := Option.none } else e
  if e1.sceneId ≠ some thisScene then
    let oldRl2 :=
      if e1.sceneId ≠ Option.none ∧ isRoot = true then
        removeFromEntityList oldRl { eid := e1.eid, siblingIndex := e1.siblingIndex }
      else oldRl
    let e2 :=
      if e1.sceneId ≠ Option.none ∧ isRoot = true then
        { e1 with siblingIndex := -1 }
      else e1
    match addToRootEntityList rl index { eid := e2.eid, siblingIndex := e2.siblingIndex } with
    | Except.error msg =>
        { thrown := some msg, rootEntities := rl, oldSceneEntities := oldRl2, entity := e2 }
    | Except.ok res =>
        { thrown := Option.none, rootEntities := res.1, oldSceneEntities := oldRl2,
          entity := { e2 with
            siblingIndex := res.2.siblingIndex,
            sceneId := some thisScene } }
  else if isRoot = false then
    match addToRootEntityList rl index { eid := e1.eid, siblingIndex := e1.siblingIndex } with
    | Except.error msg =>
        { thrown := some msg, rootEntities := rl, oldSceneEntities := oldRl, entity := e1 }
    | Except.ok res =>
        { thrown := Option.none, rootEntities := res.1, oldSceneEntities := oldRl,
          entity := { e1 with siblingIndex := res.2.siblingIndex } }
  else { thrown := Option.none, rootEntities := rl, oldSceneEntities := oldRl, entity := e1 }

/-- A concrete non-root entity with a parent and no owning scene, used for
the `addRootEntity` error-path claims. -/
def strayEntity : EntitySt :=
  { eid := 1, isRoot := false, parent := some 7, sceneId := Option.none, siblingIndex := -1 }

/-- A concrete entity that is a root of scene `9` at position `0`, used
for the `addRootEntity` error-path claims. -/
def foreignRootEntity : EntitySt :=
  { eid := 1, isRoot := true, parent := Option.none, sceneId := some 9, siblingIndex := 0 }

/-- C5 counterexample: adding a non-root entity (parent `7`) to an empty
scene at index `5` does raise the out-of-range error, but by then the
entity's root flag has been set and its parent link cleared — the claim
that no entity state changes when the error is raised is false. -/
theorem addRootEntity_counterexample :
    (addRootEntity [] [] strayEntity (some 5) 0).thrown.isSome = true ∧
    ¬((addRootEntity [] [] strayEntity (some 5) 0).entity.isRoot = strayEntity.isRoot) ∧
    ¬((addRootEntity [] [] strayEntity (some 5) 0).entity.parent = strayEntity.parent) := by
  decide

/-- C5 amended: for an entity that is not already a root of this scene,
`addRootEntity` with an index that is negative or greater than the current
root count raises the out-of-range error; this scene's root list and the
entity's owning-scene reference are unchanged, but before the error
escapes the entity's root flag has been set, a previously non-root entity
has been detached from its parent, and an entity that was a root of a
different scene has been spliced out of that scene's root list with its
sibling index reset to `-1` (otherwise the sibling index is unchanged). -/
theorem addRootEntity_outOfRange (rl oldRl : List REntity) (e : EntitySt) (i : Int)
    (scene : Nat) (hi : i < 0 ∨ (rl.length : Int) < i)
    (hnr : ¬(e.isRoot = true ∧ e.sceneId = some scene)) :
    (addRootEntity rl oldRl e (some i) scene).thrown.isSome = true ∧
    (addRootEntity rl oldRl e (some i) scene).rootEntities = rl ∧
    (addRootEntity rl oldRl e (some i) scene).entity.sceneId = e.sceneId ∧
    (addRootEntity rl oldRl e (some i) scene).entity.isRoot = true ∧
    (addRootEntity rl oldRl e (some i) scene).entity.parent =
      (if e.isRoot = true then e.parent else Option.none) ∧
    (addRootEntity rl oldRl e (some i) scene).entity.siblingIndex =
      (if e.isRoot = true ∧ e.sceneId ≠ Option.none then -1 else e.siblingIndex) ∧
    (addRootEntity rl oldRl e (some i) scene).oldSceneEntities =
      (if e.isRoot = true ∧ e.sceneId ≠ Option.none then
        removeFromEntityList oldRl { eid := e.eid, siblingIndex := e.siblingIndex }
       else oldRl) := by
  have herr : ∀ x : REntity, addToRootEntityList rl (some i) x =
      Except.error "The index is out of child list bounds" := by
    intro x
    simp [addToRootEntityList, hi]
  by_cases hsc : e.sceneId = some scene
  · have hroot : e.isRoot = false := by
      cases hb : e.isRoot
      · rfl
      · exact absurd ⟨hb, hsc⟩ hnr
    simp [addRootEntity, hroot, hsc, herr]
  · cases hroot : e.isRoot with
    | false => cases hscn : e.sceneId <;> simp [addRootEntity, hroot, hsc, hscn, herr]
    | true =>
      cases hscn : e.sceneId with
      | none => simp [addRootEntity, hroot, hsc, hscn, herr]
      | some v =>
        have hvs : ¬(v = scene) := by
          intro hv
          exact hsc (by rw [hscn, hv])
        simp [addRootEntity, hroot, hsc, hscn, hvs, herr]

/-- Witness for the amended C5: a root of scene `9` (at position `0` of
that scene's one-entry root list) added to this empty scene `0` at index
`5` — the error is raised, this scene's list is untouched, and the entity
has been spliced out of scene `9`'s list with sibling index `-1`. -/
theorem addRootEntity_outOfRange_witness :
    (addRootEntity [] [{ eid := 1, siblingIndex := 0 }] foreignRootEntity
      (some 5) 0).thrown.isSome = true ∧
    (addRootEntity [] [{ eid := 1, siblingIndex := 0 }] foreignRootEntity
      (some 5) 0).rootEntities = [] ∧
    (addRootEntity [] [{ eid := 1, siblingIndex := 0 }] foreignRootEntity
      (some 5) 0).entity.sceneId = foreignRootEntity.sceneId ∧
    (addRootEntity [] [{ eid := 1, siblingIndex := 0 }] foreignRootEntity
      (some 5) 0).entity.isRoot = true ∧
    (addRootEntity [] [{ eid := 1, siblingIndex := 0 }] foreignRootEntity
      (some 5) 0).entity.parent =
      (if foreignRootEntity.isRoot = true then foreignRootEntity.parent
       else Option.none) ∧
    (addRootEntity [] [{ eid := 1, siblingIndex := 0 }] foreignRootEntity
      (some 5) 0).entity.siblingIndex =
      (if foreignRootEntity.isRoot = true ∧ foreignRootEntity.sceneId ≠ Option.none
       then -1 else foreignRootEntity.siblingIndex) ∧
    (addRootEntity [] [{ eid := 1, siblingIndex := 0 }] foreignRootEntity
      (some 5) 0).oldSceneEntities =
      (if foreignRootEntity.isRoot = true ∧ foreignRootEntity.sceneId ≠ Option.none
       then removeFromEntityList [{ eid := 1, siblingIndex := 0 }]
        { eid := foreignRootEntity.eid, siblingIndex := foreignRootEntity.siblingIndex }
       else [{ eid := 1, siblingIndex := 0 }]) :=
  addRootEntity_outOfRange [] [{ eid := 1, siblingIndex := 0 }] foreignRootEntity
    5 0 (Or.inr (by decide)) (by decide)

/-! ## `Scene.findEntityByPath` -/

/-- An entity hierarchy node: a name and an ordered list of children.
Names and paths are modelled as character lists. -/
inductive ETree where
  | mk (name : List Char) (children : List ETree)

def ETree.name : ETree → List Char
  | ETree.mk n _ => n

def ETree.children : ETree → List ETree
  | ETree.mk _ cs => cs

/-- JavaScript `path.split("/")`: split at every separator, keeping empty
segments; the accumulator holds the current segment reversed. -/
def splitAcc : List Char → List Char → List (List Char)
  | [], acc => [acc.reverse]
  | ch :: rest, acc =>
      if ch = '/' then acc.reverse :: splitAcc rest [] else splitAcc rest (ch :: acc)

/-- `path.split("/").filter(Boolean)`: empty segments are discarded. -/
def splitPath (path : List Char) : List (List Char) :=
  (splitAcc path []).filter (fun s => decide (s ≠ []))

/-- Modelled from the spec: `Entity._findChildByName` is not among the
provided sources; per the spec the walk resolves each remaining segment
"as a child name", i.e. to the first child whose name equals the segment. -/
def findChildByName (e : ETree) (nm : List Char) : Option ETree :=
  e.children.find? (fun c => c.name == nm)

/-- The inner `for (j = 1; ...)` walk of `findEntityByPath`: resolve each
remaining segment as a child name; the loop breaks leaving `null` as soon
as a segment fails to resolve. -/
def walkChildren : ETree → List (List Char) → Option ETree
  | e, [] => some e
  | e, s :: rest =>
      match findChildByName e s with
      | Option.none => Option.none
      | some c => walkChildren c rest

/-- The outer root loop of `findEntityByPath`: `continue` past roots whose
name differs from the first segment; at the first matching root, walk the
remaining segments and return whatever the walk produced (even `null`). -/
def findPathLoop (roots : List ETree) (s0 : List Char) (rest : List (List Char)) :
    Option ETree :=
  match roots with
  | [] => Option.none
  | r :: rs => if r.name == s0 then walkChildren r rest else findPathLoop rs s0 rest

/-- `Scene.findEntityByPath`.  With zero segments, `splits[0]` is
`undefined` and never equals a root's (string) name, so every root is
skipped and the result is `null`. -/
def findEntityByPath (roots : List ETree) (path : List Char) : Option ETree :=
  match splitPath path with
  | [] => Option.none
  | s0 :: rest => findPathLoop roots s0 rest

/-- The claim's description of the algorithm, assembled from the spec's
words: split on `/` discarding empty segments; match the first segment
against root names in forward index order; resolve each remaining segment
as a child name, collapsing to `none` whenever a segment fails to
resolve. -/
def findEntityByPathSpec (roots : List ETree) (path : List Char) : Option ETree :=
  match splitPath path with
  | [] => Option.none
  | s0 :: rest =>
      (roots.find? (fun r => r.name == s0)).bind (fun r =>
        rest.foldl (fun acc s => acc.bind (fun e => findChildByName e s)) (some r))

lemma foldl_child_none (segs : List (List Char)) :
    segs.foldl (fun acc s => acc.bind (fun e => findChildByName e s)) Option.none =
      Option.none := by
  induction segs with
  | nil => rfl
  | cons s rest ih => simpa using ih

lemma walkChildren_eq_foldl (segs : List (List Char)) (e : ETree) :
    walkChildren e segs =
      segs.foldl (fun acc s => acc.bind (fun e2 => findChildByName e2 s)) (some e) := by
  induction segs generalizing e with
  | nil => rfl
  | cons s rest ih =>
    cases hc : findChildByName e s with
    | none => simp [walkChildren, hc, foldl_child_none]
    | some c => simp [walkChildren, hc, ih c]

lemma findPathLoop_eq_find (roots : List ETree) (s0 : List Char)
    (rest : List (List Char)) :
    findPathLoop roots s0 rest =
      (roots.find? (fun r => r.name == s0)).bind (fun r => walkChildren r rest) := by
  induction roots with
  | nil => rfl
  | cons r rs ih =>
    by_cases hr : (r.name == s0) = true
    · simp [findPathLoop, List.find?, hr]
    · rw [Bool.not_eq_true] at hr
      simp [findPathLoop, List.find?, hr, ih]

/-- The demonstration hierarchy of the claim: root `A` with child `B` with
child `C`. -/
def demoRoots : List ETree :=
  [ETree.mk "A".toList [ETree.mk "B".toList [ETree.mk "C".toList []]]]

/-- C8: `findEntityByPath` agrees with the claim's algorithm — split on
`/`, discard empty segments, match the first segment against root names in
forward order, resolve each remaining segment as a child name, `none` as
soon as anything fails; concretely, `"A/B/C"` resolves to `C` and `"A/X"`
to `none` on the demonstration hierarchy. -/
theorem findEntityByPath_spec :
    (∀ (roots : List ETree) (path : List Char),
      findEntityByPath roots path = findEntityByPathSpec roots path) ∧
    (findEntityByPath demoRoots "A/B/C".toList).map ETree.name = some "C".toList ∧
    (findEntityByPath demoRoots "A/X".toList).map ETree.name = Option.none := by
  refine ⟨?_, by decide, by decide⟩
  intro roots path
  rw [findEntityByPath, findEntityByPathSpec]
  rcases hsp : splitPath path with _ | ⟨s0, rest⟩
  · rfl
  · show findPathLoop roots s0 rest =
      (roots.find? (fun r => r.name == s0)).bind (fun r =>
        rest.foldl (fun acc s => acc.bind (fun e => findChildByName e s)) (some r))
    rw [findPathLoop_eq_find]
    exact congrArg (Option.bind _) (funext fun r => walkChildren_eq_foldl rest r)

/-! ## Basic render pipeline: passes and `_drawRenderPass` -/

/-- `CameraClearFlags` bitmask reduced to its two bits; `None` is both bits
clear, and the `Color` bit is what `camera.clearFlags & CameraClearFlags.Color`
tests. -/
structure ClearFlags where
  color : Bool
  depth : Bool
deriving DecidableEq, Repr

/-- `CameraClearFlags.None`. -/
def noClear : ClearFlags :=
  { color := false, depth := false }

inductive BackgroundMode where
  | solidColor
  | sky
  | texture
deriving DecidableEq, Repr

/-- The scene background as read by `_drawRenderPass`. -/
structure BackgroundM where
  mode : BackgroundMode
  solidColor : Nat
  texture : Option Nat
deriving DecidableEq, Repr

/-- A `RenderPass` as configuration data.  `passId` models JavaScript
object identity (what `===` and `Array.prototype.indexOf` compare);
render targets, materials and colors are opaque handles. -/
structure RenderPassM where
  passId : Nat
  pname : List Char
  priority : Int
  renderTarget : Option Nat
  replaceMaterial : Option Nat
  mask : Nat
  enabled : Bool
  clearFlags : Option ClearFlags
  clearColor : Option Nat
  renderOverride : Bool
deriving DecidableEq, Repr

/-- The camera fields read by `_drawRenderPass`. -/
structure CameraM where
  renderTarget : Option Nat
  clearFlags : ClearFlags
  viewport : Nat
deriving DecidableEq, Repr

/-- `BasicRenderPipeline.getRenderPass`: first pass with the given name. -/
def getRenderPass (arr : List RenderPassM) (nm : List Char) : Option RenderPassM :=
  arr.find? (fun p => p.pname == nm)

/-- `Array.prototype.indexOf`: position of the pass (by identity) or `-1`. -/
def indexOfPass (arr : List RenderPassM) (p : RenderPassM) : Int :=
  match arr.findIdx? (fun q => q.passId == p.passId) with
  | some i => (i : Int)
  | Option.none => -1

/-- `Array.prototype.splice(idx, 1)`: a negative start counts back from the
end (clamped at 0), a start past the end removes nothing. -/
def spliceRemoveOne (arr : List RenderPassM) (idx : Int) : List RenderPassM :=
  let start : Nat :=
    if idx < 0 then (max ((arr.length : Int) + idx) 0).toNat
    else min idx.toNat arr.length
  arr.take start ++ arr.drop (start + 1)

/-- The argument of `removeRenderPass`: a pass name or a pass object. -/
inductive NameOrPass where
  | byName (nm : List Char)
  | byPass (p : RenderPassM)
deriving DecidableEq, Repr

/-- `BasicRenderPipeline.removeRenderPass`: resolve a name via
`getRenderPass` (a miss leaves `pass` null and nothing happens); a pass
object is used as-is, and `splice(indexOf(pass), 1)` runs with no check
that `indexOf` found it. -/
def removeRenderPass (arr : List RenderPassM) (arg : NameOrPass) : List RenderPassM :=
  let pass : Option RenderPassM :=
    match arg with
    | NameOrPass.byName nm => getRenderPass arr nm
    | NameOrPass.byPass p => some p
  match pass with
  | Option.none => arr
  | some p => spliceRemoveOne arr (indexOfPass arr p)

/-- The default pass created by the pipeline constructor. -/
def defaultPassM : RenderPassM :=
  { passId := 0, pname := "default".toList, priority := 0,
    renderTarget := Option.none, replaceMaterial := Option.none, mask := 0,
    enabled := true, clearFlags := Option.none, clearColor := Option.none,
    renderOverride := false }

/-- A pass object that was never added to the pipeline. -/
def strayPassM : RenderPassM :=
  { defaultPassM with passId := 1, pname := "stray".toList }

/-- C4: removing by a name that matches no pass is a no-op, but removing a
`RenderPass` object that is not in the array is not: `indexOf` yields `-1`
and `splice(-1, 1)` deletes the **last** pass.  Evaluated at the failing
input `removeRenderPass([default], strayPass)`. -/
theorem removeRenderPass_absent_object :
    removeRenderPass [defaultPassM] (NameOrPass.byName "stray".toList) = [defaultPassM] ∧
    removeRenderPass [defaultPassM] (NameOrPass.byPass strayPassM) = [] ∧
    ¬(removeRenderPass [defaultPassM] (NameOrPass.byPass strayPassM) = [defaultPassM]) := by
  decide

/-- Observable actions of one `_drawRenderPass` call, in order. -/
inductive RenderEvent where
  | preRender
  | activeRenderTarget (target : Option Nat) (viewport : Nat)
  | setRenderTargetInfo
  | clearRenderTarget (flags : ClearFlags) (color : Nat)
  | passRender
  | drawOpaque
  | drawAlphaTest
  | drawSky
  | drawBackgroundTexture
  | drawTransparent
  | blitRenderTarget
  | generateMipmaps
  | postRender
deriving DecidableEq, Repr

/-- `BasicRenderPipeline._drawRenderPass` as the ordered trace of its
observable actions.  Note the target resolution is
`camera.renderTarget || pass.renderTarget` (camera first), the clear-flag
resolution `pass.clearFlags ?? camera.clearFlags`, the clear-color
resolution `pass.clearColor ?? background.solidColor`, and the background
draw is guarded by `camera.clearFlags & CameraClearFlags.Color`. -/
def drawRenderPass (pass : RenderPassM) (camera : CameraM)
    (background : BackgroundM) : List RenderEvent :=
  [RenderEvent.preRender] ++
  (if pass.enabled = true then
    let renderTarget :=
      match camera.renderTarget with
      | some t => some t
      | Option.none => pass.renderTarget
    let clearFlags := pass.clearFlags.getD camera.clearFlags
    let color := pass.clearColor.getD background.solidColor
    [RenderEvent.activeRenderTarget renderTarget camera.viewport] ++
    (match renderTarget with
     | some _ => [RenderEvent.setRenderTargetInfo]
     | Option.none => []) ++
    (if clearFlags ≠ noClear then [RenderEvent.clearRenderTarget clearFlags color]
     else []) ++
    (if pass.renderOverride = true then [RenderEvent.passRender]
     else
       [RenderEvent.drawOpaque, RenderEvent.drawAlphaTest] ++
       (if camera.clearFlags.color = true then
          (if background.mode = BackgroundMode.sky then [RenderEvent.drawSky]
           else if background.mode = BackgroundMode.texture ∧ background.texture.isSome
           then [RenderEvent.drawBackgroundTexture]
           else [])
        else []) ++
       [RenderEvent.drawTransparent]) ++
    (match renderTarget with
     | some _ => [RenderEvent.blitRenderTarget, RenderEvent.generateMipmaps]
     | Option.none => [])
   else []) ++
  [RenderEvent.postRender]

/-- The render targets bound during a trace, in order. -/
def boundTargets (evs : List RenderEvent) : List (Option Nat) :=
  evs.filterMap (fun e =>
    match e with
    | RenderEvent.activeRenderTarget t _ => some t
    | _ => Option.none)

/-- The clears issued during a trace, in order. -/
def clearOps (evs : List RenderEvent) : List (ClearFlags × Nat) :=
  evs.filterMap (fun e =>
    match e with
    | RenderEvent.clearRenderTarget f c => some (f, c)
    | _ => Option.none)

/-- C9: a pass with `enabled = false` still contributes exactly one
`preRender` and one `postRender` call (with nothing in between): no target
binding, no clear, no queue or background drawing. -/
theorem drawRenderPass_disabled (pass : RenderPassM) (camera : CameraM)
    (background : BackgroundM) (h : pass.enabled = false) :
    drawRenderPass pass camera background =
      [RenderEvent.preRender, RenderEvent.postRender] := by
  simp [drawRenderPass, h]

/-- A disabled copy of the default pass. -/
def disabledPassM : RenderPassM :=
  { defaultPassM with enabled := false }

/-- A camera with clear flags set and no render-target override. -/
def cameraM0 : CameraM :=
  { renderTarget := Option.none, clearFlags := { color := true, depth := true },
    viewport := 0 }

/-- A solid-color background. -/
def backgroundM0 : BackgroundM :=
  { mode := BackgroundMode.solidColor, solidColor := 5, texture := Option.none }

/-- Witness for C9 at a concrete disabled pass. -/
theorem drawRenderPass_disabled_witness :
    drawRenderPass disabledPassM cameraM0 backgroundM0 =
      [RenderEvent.preRender, RenderEvent.postRender] :=
  drawRenderPass_disabled disabledPassM cameraM0 backgroundM0 rfl

/-- An enabled pass carrying its own render target `2`. -/
def passWithTarget : RenderPassM :=
  { defaultPassM with passId := 2, renderTarget := some 2 }

/-- A camera carrying its own render target `1`. -/
def cameraWithTarget : CameraM :=
  { renderTarget := some 1, clearFlags := { color := true, depth := true },
    viewport := 0 }

/-- C3 counterexample: for an enabled pass whose own render target is `2`
under a camera whose render target is `1`, the bound target is the
camera's `1`, not the pass's own `2` — the source reads
`camera.renderTarget || pass.renderTarget`, so the camera's target wins
whenever it is present, contradicting the claim. -/
theorem drawRenderPass_target_counterexample :
    passWithTarget.enabled = true ∧
    passWithTarget.renderTarget = some 2 ∧
    cameraWithTarget.renderTarget = some 1 ∧
    boundTargets (drawRenderPass passWithTarget cameraWithTarget backgroundM0) =
      [some 1] ∧
    ¬(boundTargets (drawRenderPass passWithTarget cameraWithTarget backgroundM0) =
      [passWithTarget.renderTarget]) := by
  decide

/-- C3 amended: an enabled pass binds exactly one render target — the
camera's when the camera has one, the pass's own only when the camera has
none; the clear flags used are the pass's override if present else the
camera's, the clear color is the pass's override if present else the
background solid color, and exactly one clear is issued when the resolved
flags are not `None` (none otherwise). -/
theorem drawRenderPass_enabled_spec (pass : RenderPassM) (camera : CameraM)
    (background : BackgroundM) (h : pass.enabled = true) :
    boundTargets (drawRenderPass pass camera background) =
      [match camera.renderTarget with
       | some t => some t
       | Option.none => pass.renderTarget] ∧
    clearOps (drawRenderPass pass camera background) =
      (if pass.clearFlags.getD camera.clearFlags ≠ noClear then
        [(pass.clearFlags.getD camera.clearFlags,
          pass.clearColor.getD background.solidColor)]
       else []) := by
  cases hct : camera.renderTarget <;>
    cases hpt : pass.renderTarget <;>
      cases hro : pass.renderOverride <;>
        by_cases hcf : pass.clearFlags.getD camera.clearFlags = noClear <;>
          cases hcc : camera.clearFlags.color <;>
            cases hbm : background.mode <;>
              simp [drawRenderPass, boundTargets, clearOps, h, hct, hpt, hro, hcf, hcc, hbm]

/-- Witness for the amended C3 at a concrete pass and camera. -/
theorem drawRenderPass_enabled_spec_witness :
    boundTargets (drawRenderPass passWithTarget cameraWithTarget backgroundM0) =
      [match cameraWithTarget.renderTarget with
       | some t => some t
       | Option.none => passWithTarget.renderTarget] ∧
    clearOps (drawRenderPass passWithTarget cameraWithTarget backgroundM0) =
      (if passWithTarget.clearFlags.getD cameraWithTarget.clearFlags ≠ noClear then
        [(passWithTarget.clearFlags.getD cameraWithTarget.clearFlags,
          passWithTarget.clearColor.getD backgroundM0.solidColor)]
       else []) :=
  drawRenderPass_enabled_spec passWithTarget cameraWithTarget backgroundM0 rfl

/-! ## `_callRender` sort keys -/

structure V3 where
  x : Int
  y : Int
  z : Int
deriving DecidableEq, Repr

/-- `Vector3.subtract`. -/
def v3sub (a b : V3) : V3 :=
  { x := a.x - b.x, y := a.y - b.y, z := a.z - b.z }

/-- `Vector3.dot`. -/
def v3dot (a b : V3) : Int :=
  a.x * b.x + a.y * b.y + a.z * b.z

/-- `Vector3.distanceSquared`. -/
def distanceSquared (a b : V3) : Int :=
  v3dot (v3sub a b) (v3sub a b)

/-- A renderer as read by `_callRender`: its entity's layer, its bounds
center, and the externally computed frustum-intersection result. -/
structure RendererM where
  layer : Nat
  boundsCenter : V3
  inFrustum : Bool
deriving DecidableEq, Repr

/-- The camera fields read by `_callRender`. -/
structure CallCamera where
  cullingMask : Nat
  enableFrustumCulling : Bool
  worldPosition : V3
  worldForward : V3
  isOrthographic : Bool
deriving DecidableEq, Repr

/-- The `_distanceForSort` assignment of `_callRender`: forward-axis
projection of (center − position) for an orthographic camera, squared
distance for a perspective one. -/
def distanceForSort (cam : CallCamera) (r : RendererM) : Int :=
  if cam.isOrthographic = true then
    v3dot (v3sub r.boundsCenter cam.worldPosition) cam.worldForward
  else distanceSquared r.boundsCenter cam.worldPosition

/-- `_callRender`: renderers are visited in reverse index order; one is
skipped when its entity's layer misses the camera's culling mask, or when
frustum culling is enabled and its bounds miss the frustum; each survivor
is assigned its sort key. -/
def callRenderKeys (cam : CallCamera) (renderers : List RendererM) :
    List (RendererM × Int) :=
  renderers.reverse.filterMap (fun r =>
    if cam.cullingMask &&& r.layer = 0 then Option.none
    else if cam.enableFrustumCulling = true ∧ r.inFrustum = false then Option.none
    else some (r, distanceForSort cam r))

/-- A renderer two units in front of the origin. -/
def demoRenderer : RendererM :=
  { layer := 1, boundsCenter := { x := 0, y := 0, z := 2 }, inFrustum := true }

/-- An orthographic camera at the origin looking down `+z`. -/
def orthoCamera : CallCamera :=
  { cullingMask := 1, enableFrustumCulling := false,
    worldPosition := { x := 0, y := 0, z := 0 },
    worldForward := { x := 0, y := 0, z := 1 }, isOrthographic := true }

/-- The same camera with a perspective projection. -/
def perspCamera : CallCamera :=
  { orthoCamera with isOrthographic := false }

/-- C7: every renderer that survives the culling-mask and frustum checks is
keyed by the forward-axis projection of (bounds center − camera position)
when the camera is orthographic and by the squared distance to the bounds
center when it is perspective; and the two formulas really are distinct
(they disagree on a camera pair differing only in the projection flag). -/
theorem callRender_sortKey_spec (cam : CallCamera) (renderers : List RendererM)
    (r : RendererM) (k : Int) (h : (r, k) ∈ callRenderKeys cam renderers) :
    (cam.isOrthographic = true →
      k = v3dot (v3sub r.boundsCenter cam.worldPosition) cam.worldForward) ∧
    (cam.isOrthographic = false →
      k = distanceSquared r.boundsCenter cam.worldPosition) ∧
    distanceForSort orthoCamera demoRenderer ≠ distanceForSort perspCamera demoRenderer := by
  rcases List.mem_filterMap.mp h with ⟨a, _, ha⟩
  by_cases h1 : cam.cullingMask &&& a.layer = 0
  · rw [if_pos h1] at ha
    exact absurd ha (by simp)
  · rw [if_neg h1] at ha
    by_cases h2 : cam.enableFrustumCulling = true ∧ a.inFrustum = false
    · rw [if_pos h2] at ha
      exact absurd ha (by simp)
    · rw [if_neg h2] at ha
      rw [Option.some.injEq, Prod.mk.injEq] at ha
      obtain ⟨rfl, rfl⟩ := ha
      exact ⟨fun ho => by simp [distanceForSort, ho], fun ho => by simp [distanceForSort, ho],
        by decide⟩

/-- Witness for C7: the demonstration renderer survives both checks under
the orthographic camera and is keyed `2` (its forward-axis projection). -/
theorem callRender_sortKey_spec_witness :
    (orthoCamera.isOrthographic = true →
      (2 : Int) = v3dot (v3sub demoRenderer.boundsCenter orthoCamera.worldPosition)
        orthoCamera.worldForward) ∧
    (orthoCamera.isOrthographic = false →
      (2 : Int) = distanceSquared demoRenderer.boundsCenter orthoCamera.worldPosition) ∧
    distanceForSort orthoCamera demoRenderer ≠ distanceForSort perspCamera demoRenderer :=
  callRender_sortKey_spec orthoCamera [demoRenderer] demoRenderer 2 (by decide)

/-! ## `Scene._updateShaderData` and the cached sun light -/

/-- A macro enable/disable on the scene's shader data, in call order.
Values carry the enum/count turned into a string by the source's
`toString()`, modelled as the underlying integer. -/
inductive SMacroOp where
  | enable (nm : List Char) (value : Option Int)
  | disable (nm : List Char)
deriving DecidableEq, Repr

/-- The numeric value of a `ShadowType` enum member (`None = 0`). -/
def shadowTypeCode : ShadowType → Int
  | ShadowType.none => 0
  | ShadowType.hard => 1
  | ShadowType.soft => 2

/-- The per-type count macros set by `LightManager._updateShaderData`
(the per-light `_appendData` uploads carry no macro traffic). -/
def lightManagerUpdateOps (directCount pointCount spotCount : Nat) : List SMacroOp :=
  (if directCount ≠ 0 then
    [SMacroOp.enable "O3_DIRECT_LIGHT_COUNT".toList (some (directCount : Int))]
   else [SMacroOp.disable "O3_DIRECT_LIGHT_COUNT".toList]) ++
  (if pointCount ≠ 0 then
    [SMacroOp.enable "O3_POINT_LIGHT_COUNT".toList (some (pointCount : Int))]
   else [SMacroOp.disable "O3_POINT_LIGHT_COUNT".toList]) ++
  (if spotCount ≠ 0 then
    [SMacroOp.enable "O3_SPOT_LIGHT_COUNT".toList (some (spotCount : Int))]
   else [SMacroOp.disable "O3_SPOT_LIGHT_COUNT".toList])

/-- `Scene._updateShaderData`: run the light manager's macro update, query
`_getSunLightIndex`, overwrite the cached `_sunLight` only when the index
is not `-1`, then decide the CASCADED_SHADOW_MAP / SHADOW_MODE macros from
`castShadows` and the (possibly stale) cached sun light.  Returns the new
cached sun light and the macro operations issued. -/
def sceneUpdateShaderData (directLights : List DirectLight)
    (pointCount spotCount : Nat) (castShadows : Bool)
    (prevSun : Option DirectLight) : Option DirectLight × List SMacroOp :=
  let countOps := lightManagerUpdateOps directLights.length pointCount spotCount
  let sunLightIndex := getSunLightIndex directLights
  let sun : Option DirectLight :=
    if sunLightIndex ≠ -1 then directLights[sunLightIndex.toNat]? else prevSun
  let shadowOps :=
    match sun with
    | some l =>
        if castShadows = true ∧ isShadowLight l = true then
          [SMacroOp.enable "CASCADED_SHADOW_MAP".toList Option.none,
           SMacroOp.enable "SHADOW_MODE".toList (some (shadowTypeCode l.shadowType))]
        else [SMacroOp.disable "CASCADED_SHADOW_MAP".toList]
    | Option.none => [SMacroOp.disable "CASCADED_SHADOW_MAP".toList]
  (sun, countOps ++ shadowOps)

/-- C10: with zero directional lights `_getSunLightIndex` returns `-1`, so
`_updateShaderData` leaves the cached `_sunLight` at whatever value it held
before, and the CASCADED_SHADOW_MAP / SHADOW_MODE decision is taken
against that previously cached light. -/
theorem updateShaderData_stale_sun (pointCount spotCount : Nat)
    (castShadows : Bool) (prevSun : Option DirectLight) :
    getSunLightIndex [] = -1 ∧
    (sceneUpdateShaderData [] pointCount spotCount castShadows prevSun).1 = prevSun ∧
    (sceneUpdateShaderData [] pointCount spotCount castShadows prevSun).2 =
      lightManagerUpdateOps 0 pointCount spotCount ++
      (match prevSun with
       | some l =>
           if castShadows = true ∧ isShadowLight l = true then
             [SMacroOp.enable "CASCADED_SHADOW_MAP".toList Option.none,
              SMacroOp.enable "SHADOW_MODE".toList (some (shadowTypeCode l.shadowType))]
           else [SMacroOp.disable "CASCADED_SHADOW_MAP".toList]
       | Option.none => [SMacroOp.disable "CASCADED_SHADOW_MAP".toList]) := by
  refine ⟨rfl, ?_, ?_⟩ <;>
    simp [sceneUpdateShaderData, getSunLightIndex, sunLoop]

end Oasis
